import Mathlib

/-!
Shallow embedding of the record-management core of the repository
(user-profile read path with field projection, and order creation path),
together with theorems settling the specification claims.

The user-profile side embeds `UsersService.findOne` and
`UsersController.getProfile`; the order side embeds
`OrdersService.createOrder` and the validation rules declared on
`CreateOrderDTO`.  JavaScript object construction via
`Object.fromEntries` is modelled by an explicit entry list with
JavaScript key-insertion semantics (first occurrence fixes the
position, a later duplicate only overwrites the value), and a thrown
exception is modelled by a dedicated result constructor so that
raising is distinguishable from a normally returned value.
-/

namespace NestHttp

/-- A JSON-like field value as it occurs in `UserProfileDto`:
numbers, strings, and arrays of strings. -/
inductive Value where
  | num (n : Int)
  | str (s : String)
  | strList (l : List String)
deriving DecidableEq, Repr

/-- The `UserProfileDto` record shape: `id`, `name`, `email`, `age`,
`preferences`, in this declaration order. -/
structure UserProfileDto where
  id : Int
  name : String
  email : String
  age : Int
  preferences : List String
deriving DecidableEq, Repr

/-- The single seeded user of `UsersService.users`. -/
def demoUser : UserProfileDto :=
  { id := 1
    name := "田中太郎"
    email := "tanaka@example.com"
    age := 30
    preferences := ["読書", "映画"] }

/-- The in-memory `users` array of `UsersService`. -/
def demoUsers : List UserProfileDto := [demoUser]

/-- Dynamic field access `user[field]`, defined exactly on the declared
own properties of a `UserProfileDto` object; `none` models a field name
for which the `field in user` test fails. -/
def getField (u : UserProfileDto) : String → Option Value
  | "id" => some (.num u.id)
  | "name" => some (.str u.name)
  | "email" => some (.str u.email)
  | "age" => some (.num u.age)
  | "preferences" => some (.strList u.preferences)
  | _ => none

/-- The full record as a JavaScript object: its own enumerable entries
in declaration order. -/
def userEntries (u : UserProfileDto) : List (String × Value) :=
  [("id", .num u.id), ("name", .str u.name), ("email", .str u.email),
   ("age", .num u.age), ("preferences", .strList u.preferences)]

/-- JavaScript property write `obj[k] = v` on an object represented as
an ordered entry list: if the key is present its value is overwritten
in place (the key keeps its original position), otherwise the entry is
appended. -/
def jsInsert (obj : List (String × Value)) (k : String) (v : Value) :
    List (String × Value) :=
  if obj.any (fun p => p.1 == k) then
    obj.map (fun p => if p.1 = k then (k, v) else p)
  else obj ++ [(k, v)]

/-- `Object.fromEntries`: build an object by inserting the entries in
order, with JavaScript duplicate-key semantics. -/
def jsFromEntries (entries : List (String × Value)) : List (String × Value) :=
  entries.foldl (fun obj p => jsInsert obj p.1 p.2) []

/-- The projection branch of `UsersService.findOne`:
`Object.fromEntries(fields.filter((field) => field in user).map((field) => [field, user[field]]))`. -/
def findOneProjection (user : UserProfileDto) (fields : List String) :
    List (String × Value) :=
  jsFromEntries
    ((fields.filter (fun f => (getField user f).isSome)).filterMap
      (fun f => (getField user f).map (fun v => (f, v))))

/-- Result of one `findOne` call: a normally returned object, or a
thrown exception (here always `NotFoundException`) carrying its message. -/
inductive FindOneResult where
  | returned (entries : List (String × Value))
  | thrown (message : String)
deriving DecidableEq, Repr

/-- The message of the `NotFoundException` thrown by `findOne`. -/
def notFoundMessage (id : Int) : String :=
  "ID: " ++ toString id ++ "のユーザーが見つかりません"

/-- `UsersService.findOne(id, fields)`: find the first user with the
given id; if none, throw `NotFoundException`; if `fields` is non-empty,
return the projected partial object, otherwise the full user. -/
def findOne (users : List UserProfileDto) (id : Int) (fields : List String) :
    FindOneResult :=
  match users.find? (fun u => u.id == id) with
  | none => .thrown (notFoundMessage id)
  | some user =>
      if fields.length > 0 then .returned (findOneProjection user fields)
      else .returned (userEntries user)

/-- The whitelist `validFields` of `UsersController.getProfile`. -/
def validFields : List String := ["id", "name", "email", "age", "preferences"]

/-- Splitting a character sequence at commas, by structural recursion. -/
def splitCommaAux : List Char → List (List Char)
  | [] => [[]]
  | c :: cs =>
      if c = ',' then [] :: splitCommaAux cs
      else
        match splitCommaAux cs with
        | [] => [[c]]
        | w :: ws => (c :: w) :: ws

/-- JavaScript `s.split(",")`: the comma-separated pieces of `s`, with
empty pieces kept (so an empty string yields one empty piece). -/
def splitComma (s : String) : List String :=
  (splitCommaAux s.toList).map (fun cs => String.mk cs)

/-- The controller's computation of `fieldArray` from the optional
`fields` query string: absent or empty (falsy) gives `[]`; otherwise
split on commas and keep only whitelisted names. -/
def parseFieldsQuery (fields : Option String) : List String :=
  match fields with
  | none => []
  | some s =>
      if s = "" then []
      else (splitComma s).filter (fun f => validFields.contains f)

/-- `UsersController.getProfile(id, fields)`: parse the selector and
delegate to `UsersService.findOne`. -/
def getProfile (users : List UserProfileDto) (id : Int)
    (fields : Option String) : FindOneResult :=
  findOne users id (parseFieldsQuery fields)

/-- The `CreateOrderDTO` payload shape (already of the declared types:
`products` an array of numbers, `quantity` a number, `shipping_address`
a string). -/
structure CreateOrderDTO where
  products : List Int
  quantity : Int
  shipping_address : String
deriving DecidableEq, Repr

/-- The `Order` interface.  `created_at` holds the value of
`new Date()` captured at creation, modelled as an abstract timestamp. -/
structure Order where
  id : Nat
  products : List Int
  quantity : Int
  shipping_address : String
  total_amount : Int
  created_at : Nat
deriving DecidableEq, Repr

/-- The private state of `OrdersService`: the `orders` array and the
`currentId` counter. -/
structure OrdersState where
  orders : List Order
  currentId : Nat
deriving DecidableEq, Repr

/-- The fresh `OrdersService` state: `orders = []`, `currentId = 0`. -/
def initialState : OrdersState := { orders := [], currentId := 0 }

/-- `OrdersService.createOrder`: increment `currentId`, build the
`Order` with the incremented id, the payload fields copied verbatim,
`total_amount = quantity * 1000` and the captured timestamp, push it
onto `orders`, and return it. -/
def createOrder (st : OrdersState) (dto : CreateOrderDTO) (now : Nat) :
    Order × OrdersState :=
  let newId := st.currentId + 1
  let order : Order :=
    { id := newId
      products := dto.products
      quantity := dto.quantity
      shipping_address := dto.shipping_address
      total_amount := dto.quantity * 1000
      created_at := now }
  (order, { orders := st.orders ++ [order], currentId := newId })

/-- Run a sequence of `createOrder` calls (each with its payload and
observed timestamp), collecting the returned orders in call order. -/
def runCreates (st : OrdersState) :
    List (CreateOrderDTO × Nat) → List Order × OrdersState
  | [] => ([], st)
  | (dto, now) :: rest =>
      let step := createOrder st dto now
      let tail := runCreates step.2 rest
      (step.1 :: tail.1, tail.2)

/-- Modelled from the spec: the repository has no order lookup under
src/ (only `UsersService` implements a lookup); §4.2 specifies
`lookup(id) → Record | NotFound` as a search of the store's records by
id, signalling absence as a value. -/
def lookupOrder (st : OrdersState) (id : Nat) : Option Order :=
  st.orders.find? (fun o => o.id == id)

/-- The tag of one validation violation. -/
inductive ViolationTag where
  | MISSING_FIELD
  | INVALID_VALUE
deriving DecidableEq, Repr

/-- One entry of a ViolationList: tag, offending field, message. -/
structure Violation where
  tag : ViolationTag
  field : String
  message : String
deriving DecidableEq, Repr

/-- Modelled from the spec: the validation engine (class-validator via
the global ValidationPipe) is not under src/; only the rules it
enforces are declared on `CreateOrderDTO`.  Per §4.1 validation is
total (all violations collected) and each failed predicate yields an
`INVALID_VALUE` entry carrying the field name and its declared
message: `ArrayMinSize(1)` on `products` and `Min(1)` on `quantity`. -/
def validateCreateOrder (dto : CreateOrderDTO) : List Violation :=
  (if dto.products.length < 1 then
    [{ tag := .INVALID_VALUE, field := "products",
       message := "商品を1つ以上選択してください" }]
   else []) ++
  (if dto.quantity < 1 then
    [{ tag := .INVALID_VALUE, field := "quantity",
       message := "数量は1以上で指定してください" }]
   else [])

/-- Modelled from the spec: the create boundary (ValidationPipe in
front of `OrdersController.createOrder`) runs validation first and
calls `createOrder` only when no violation was found; on failure the
ViolationList is surfaced verbatim and the store is left untouched. -/
def handleCreate (st : OrdersState) (dto : CreateOrderDTO) (now : Nat) :
    Except (List Violation) Order × OrdersState :=
  if validateCreateOrder dto = [] then
    let step := createOrder st dto now
    (.ok step.1, step.2)
  else (.error (validateCreateOrder dto), st)

/-- First-occurrence deduplication of a key list, skipping keys already
seen: the order in which JavaScript object keys end up after repeated
insertion. -/
def firstDedupAux (seen : List String) : List String → List String
  | [] => []
  | f :: fs =>
      if f ∈ seen then firstDedupAux seen fs
      else f :: firstDedupAux (f :: seen) fs

/-- First-occurrence deduplication of a key list. -/
def firstDedup (l : List String) : List String := firstDedupAux [] l

lemma mem_firstDedupAux (l : List String) (seen : List String) (f : String) :
    f ∈ firstDedupAux seen l ↔ f ∈ l ∧ f ∉ seen := by
  induction l generalizing seen with
  | nil => simp [firstDedupAux]
  | cons x xs ih =>
      by_cases hx : x ∈ seen
      · rw [firstDedupAux, if_pos hx, ih]
        constructor
        · rintro ⟨h1, h2⟩
          exact ⟨List.mem_cons_of_mem _ h1, h2⟩
        · rintro ⟨h1, h2⟩
          rcases List.mem_cons.mp h1 with h | h
          · exact absurd (h ▸ hx) h2
          · exact ⟨h, h2⟩
      · rw [firstDedupAux, if_neg hx]
        simp only [List.mem_cons, ih]
        constructor
        · rintro (rfl | ⟨h1, h2⟩)
          · exact ⟨Or.inl rfl, hx⟩
          · exact ⟨Or.inr h1, fun hf => h2 (Or.inr hf)⟩
        · rintro ⟨rfl | h1, h2⟩
          · exact Or.inl rfl
          · by_cases hfx : f = x
            · exact Or.inl hfx
            · exact Or.inr ⟨h1, fun hf => hf.elim hfx h2⟩

lemma nodup_firstDedupAux (l : List String) (seen : List String) :
    (firstDedupAux seen l).Nodup := by
  induction l generalizing seen with
  | nil => simp [firstDedupAux]
  | cons x xs ih =>
      by_cases hx : x ∈ seen
      · rw [firstDedupAux, if_pos hx]
        exact ih seen
      · rw [firstDedupAux, if_neg hx]
        refine List.nodup_cons.mpr ⟨?_, ih (x :: seen)⟩
        intro hmem
        exact ((mem_firstDedupAux xs (x :: seen) x).mp hmem).2
          (List.mem_cons_self x seen)

lemma firstDedupAux_congr (l : List String) (s1 s2 : List String)
    (h : ∀ x, x ∈ s1 ↔ x ∈ s2) :
    firstDedupAux s1 l = firstDedupAux s2 l := by
  induction l generalizing s1 s2 with
  | nil => rfl
  | cons x xs ih =>
      by_cases hx : x ∈ s1
      · rw [firstDedupAux, if_pos hx, firstDedupAux, if_pos ((h x).mp hx)]
        exact ih s1 s2 h
      · rw [firstDedupAux, if_neg hx, firstDedupAux,
          if_neg (fun hm => hx ((h x).mpr hm))]
        have h' : ∀ y, y ∈ x :: s1 ↔ y ∈ x :: s2 := by
          intro y
          simp only [List.mem_cons, h y]
        rw [ih (x :: s1) (x :: s2) h']

lemma firstDedup_perm {l1 l2 : List String} (h : l1.Perm l2) :
    (firstDedup l1).Perm (firstDedup l2) := by
  refine (List.perm_ext_iff_of_nodup (nodup_firstDedupAux l1 [])
    (nodup_firstDedupAux l2 [])).mpr ?_
  intro a
  simp only [firstDedup, mem_firstDedupAux]
  simp [h.mem_iff]

lemma jsInsert_of_mem (obj : List (String × Value)) (v : String → Value)
    (k : String) (hobj : ∀ p ∈ obj, p.2 = v p.1) (hk : ∃ p ∈ obj, p.1 = k) :
    jsInsert obj k (v k) = obj := by
  rw [jsInsert, if_pos]
  · have : ∀ p ∈ obj, (if p.1 = k then (k, v k) else p) = p := by
      intro p hp
      by_cases hpk : p.1 = k
      · rw [if_pos hpk]
        have h2 := hobj p hp
        cases p with
        | mk a b =>
            simp only at hpk h2
            subst hpk
            subst h2
            rfl
      · rw [if_neg hpk]
    calc obj.map (fun p => if p.1 = k then (k, v k) else p)
        = obj.map id := List.map_congr_left this
      _ = obj := List.map_id obj
  · rw [List.any_eq_true]
    rcases hk with ⟨p, hp, hpk⟩
    exact ⟨p, hp, beq_iff_eq.mpr hpk⟩

lemma jsInsert_of_not_mem (obj : List (String × Value)) (k : String)
    (v : Value) (hk : ¬∃ p ∈ obj, p.1 = k) :
    jsInsert obj k v = obj ++ [(k, v)] := by
  rw [jsInsert, if_neg]
  rw [List.any_eq_true]
  rintro ⟨p, hp, hpk⟩
  exact hk ⟨p, hp, beq_iff_eq.mp hpk⟩

lemma jsFoldl_keyed (v : String → Value) (l : List String)
    (acc : List (String × Value)) (hacc : ∀ p ∈ acc, p.2 = v p.1) :
    List.foldl (fun obj p => jsInsert obj p.1 p.2) acc
        (l.map (fun f => (f, v f))) =
      acc ++ (firstDedupAux (acc.map Prod.fst) l).map (fun f => (f, v f)) := by
  induction l generalizing acc with
  | nil => simp [firstDedupAux]
  | cons x xs ih =>
      simp only [List.map_cons, List.foldl_cons]
      by_cases hx : x ∈ acc.map Prod.fst
      · have hex : ∃ p ∈ acc, p.1 = x := by
          rcases List.mem_map.mp hx with ⟨p, hp, hpx⟩
          exact ⟨p, hp, hpx⟩
        rw [jsInsert_of_mem acc v x hacc hex, ih acc hacc, firstDedupAux,
          if_pos hx]
      · have hex : ¬∃ p ∈ acc, p.1 = x := by
          rintro ⟨p, hp, rfl⟩
          exact hx (List.mem_map_of_mem Prod.fst hp)
        rw [jsInsert_of_not_mem acc x (v x) hex]
        have hacc' : ∀ p ∈ acc ++ [(x, v x)], p.2 = v p.1 := by
          intro p hp
          rcases List.mem_append.mp hp with h | h
          · exact hacc p h
          · simp only [List.mem_singleton] at h
            subst h
            rfl
        rw [ih (acc ++ [(x, v x)]) hacc', firstDedupAux, if_neg hx]
        have hseen : ∀ y,
            y ∈ (acc ++ [(x, v x)]).map Prod.fst ↔
              y ∈ x :: acc.map Prod.fst := by
          intro y
          simp only [List.map_append, List.mem_append, List.map_cons,
            List.map_nil, List.mem_singleton, List.mem_cons]
          tauto
        rw [firstDedupAux_congr xs _ _ hseen]
        simp [List.append_assoc]

lemma jsFromEntries_keyed (v : String → Value) (l : List String) :
    jsFromEntries (l.map (fun f => (f, v f))) =
      (firstDedup l).map (fun f => (f, v f)) := by
  have h := jsFoldl_keyed v l [] (by intro p hp; simp at hp)
  simpa [jsFromEntries, firstDedup] using h

/-- The value of an existing field, defaulting for the impossible
missing case. -/
def fieldValue (u : UserProfileDto) (f : String) : Value :=
  (getField u f).getD (.str "")

lemma filterMap_good (u : UserProfileDto) (l : List String)
    (hl : ∀ f ∈ l, (getField u f).isSome) :
    l.filterMap (fun f => (getField u f).map (fun v => (f, v))) =
      l.map (fun f => (f, fieldValue u f)) := by
  induction l with
  | nil => rfl
  | cons x xs ih =>
      have hx := hl x (List.mem_cons_self x xs)
      rcases Option.isSome_iff_exists.mp hx with ⟨v, hv⟩
      simp [List.filterMap_cons, hv, fieldValue,
        ih (fun f hf => hl f (List.mem_cons_of_mem _ hf))]

lemma projection_eq_keyed (u : UserProfileDto) (fields : List String) :
    findOneProjection u fields =
      (firstDedup (fields.filter (fun f => (getField u f).isSome))).map
        (fun f => (f, fieldValue u f)) := by
  have hgood : ∀ f ∈ fields.filter (fun f => (getField u f).isSome),
      (getField u f).isSome := by
    intro f hf
    exact (List.mem_filter.mp hf).2
  rw [findOneProjection, filterMap_good u _ hgood, jsFromEntries_keyed]

lemma createOrder_fst (st : OrdersState) (dto : CreateOrderDTO) (now : Nat) :
    (createOrder st dto now).1 =
      { id := st.currentId + 1, products := dto.products,
        quantity := dto.quantity, shipping_address := dto.shipping_address,
        total_amount := dto.quantity * 1000, created_at := now } := rfl

lemma createOrder_snd (st : OrdersState) (dto : CreateOrderDTO) (now : Nat) :
    (createOrder st dto now).2 =
      { orders := st.orders ++ [(createOrder st dto now).1],
        currentId := st.currentId + 1 } := rfl

lemma runCreates_spec (st : OrdersState) (reqs : List (CreateOrderDTO × Nat)) :
    (runCreates st reqs).1.map Order.id =
        List.range' (st.currentId + 1) reqs.length ∧
      (runCreates st reqs).2.currentId = st.currentId + reqs.length ∧
      (runCreates st reqs).2.orders = st.orders ++ (runCreates st reqs).1 := by
  induction reqs generalizing st with
  | nil => simp [runCreates]
  | cons r rest ih =>
      obtain ⟨dto, now⟩ := r
      obtain ⟨h1, h2, h3⟩ := ih (createOrder st dto now).2
      have hc : (createOrder st dto now).2.currentId = st.currentId + 1 := rfl
      have ho : (createOrder st dto now).2.orders =
          st.orders ++ [(createOrder st dto now).1] := rfl
      refine ⟨?_, ?_, ?_⟩
      · simp only [runCreates, List.map_cons, List.length_cons,
          List.range'_succ]
        rw [h1, hc]
        rfl
      · simp only [runCreates, List.length_cons]
        rw [h2, hc]
        omega
      · simp only [runCreates]
        rw [h3, ho]
        simp [List.append_assoc]

/-- Claim C1, counterexample.  The claim says the projection entries
come out in the Record's declared field order (`name` before `email`),
so that requesting the same set in either order gives the same result.
On the code, `Object.fromEntries` keeps JavaScript insertion order,
which is the request order: requesting `email, name` yields the entry
for `email` first, and the two request orders give different entry
sequences. -/
theorem narrow_request_order_counterexample :
    findOne demoUsers 1 ["email", "name"] =
        .returned [("email", .str "tanaka@example.com"),
          ("name", .str "田中太郎")] ∧
      findOne demoUsers 1 ["email", "name"] ≠
        findOne demoUsers 1 ["name", "email"] := by
  constructor
  · rfl
  · decide

/-- Claim C1, amended.  The entries of the projection appear in request
order (order of first occurrence of each existing field in the
requested list), not in Record declaration order; projections of
requested lists that are permutations of one another contain the same
entries, i.e. are permutations of one another, though not necessarily
equal as ordered sequences. -/
theorem narrow_request_order_and_perm (u : UserProfileDto)
    (fs1 fs2 : List String) (h : fs1.Perm fs2) :
    (findOneProjection u fs1).map Prod.fst =
        firstDedup (fs1.filter (fun f => (getField u f).isSome)) ∧
      (findOneProjection u fs1).Perm (findOneProjection u fs2) := by
  constructor
  · rw [projection_eq_keyed, List.map_map]
    have hid : ∀ f ∈ firstDedup
        (fs1.filter (fun f => (getField u f).isSome)),
        (Prod.fst ∘ fun f => (f, fieldValue u f)) f = id f :=
      fun f _ => rfl
    rw [List.map_congr_left hid, List.map_id]
  · rw [projection_eq_keyed, projection_eq_keyed]
    exact (firstDedup_perm (h.filter _)).map _

/-- Concrete instance of the amended C1 theorem. -/
theorem narrow_request_order_and_perm_witness :
    (findOneProjection demoUser ["name", "email"]).map Prod.fst =
        firstDedup (["name", "email"].filter
          (fun f => (getField demoUser f).isSome)) ∧
      (findOneProjection demoUser ["name", "email"]).Perm
        (findOneProjection demoUser ["email", "name"]) :=
  narrow_request_order_and_perm demoUser ["name", "email"]
    ["email", "name"] (by decide)

/-- Claim C2.  Over any sequence of `createOrder` calls on one store,
the ids of the returned records are strictly increasing in call order,
hence pairwise distinct. -/
theorem createOrder_ids_strictly_increasing (st : OrdersState)
    (reqs : List (CreateOrderDTO × Nat)) :
    ((runCreates st reqs).1.map Order.id).Pairwise (· < ·) ∧
      ((runCreates st reqs).1.map Order.id).Nodup := by
  obtain ⟨h1, -, -⟩ := runCreates_spec st reqs
  rw [h1]
  exact ⟨List.pairwise_lt_range' _ _, List.nodup_range' _ _⟩

/-- Claim C3.  On a fresh store, creating
`{products := [1, 2, 3], quantity := 2, shipping_address := "X"}`
yields the record with id 1, the input fields copied verbatim,
`total_amount = 2000` and the captured timestamp; in general the
derived field equals `quantity * 1000` for every payload. -/
theorem createOrder_scenario_and_derived_total (t : Nat)
    (st : OrdersState) (dto : CreateOrderDTO) (now : Nat) :
    (createOrder initialState
        { products := [1, 2, 3], quantity := 2,
          shipping_address := "X" } t).1 =
        { id := 1, products := [1, 2, 3], quantity := 2,
          shipping_address := "X", total_amount := 2000,
          created_at := t } ∧
      ((createOrder st dto now).1).total_amount = dto.quantity * 1000 :=
  ⟨rfl, rfl⟩

/-- Claim C4.  On any store whose records all carry ids at most
`currentId` (an invariant of every reachable store), inserting a
payload and then looking the returned id up succeeds and yields the
very record the insert returned. -/
theorem insert_then_lookup_roundtrip (st : OrdersState)
    (dto : CreateOrderDTO) (now : Nat)
    (hinv : ∀ o ∈ st.orders, o.id ≤ st.currentId) :
    lookupOrder (createOrder st dto now).2 (createOrder st dto now).1.id =
      some (createOrder st dto now).1 := by
  rw [lookupOrder, createOrder_snd, List.find?_append]
  have h1 : st.orders.find?
      (fun o => o.id == (createOrder st dto now).1.id) = none := by
    rw [List.find?_eq_none]
    intro o ho
    have hle := hinv o ho
    have hid : (createOrder st dto now).1.id = st.currentId + 1 := rfl
    simp only [hid, beq_iff_eq]
    omega
  rw [h1]
  simp [List.find?]

/-- Concrete instance of the C4 theorem on the fresh store. -/
theorem insert_then_lookup_roundtrip_witness :
    lookupOrder (createOrder initialState
        { products := [1, 2, 3], quantity := 2,
          shipping_address := "X" } 0).2
      (createOrder initialState
        { products := [1, 2, 3], quantity := 2,
          shipping_address := "X" } 0).1.id =
      some (createOrder initialState
        { products := [1, 2, 3], quantity := 2,
          shipping_address := "X" } 0).1 :=
  insert_then_lookup_roundtrip initialState
    { products := [1, 2, 3], quantity := 2, shipping_address := "X" } 0
    (by intro o ho; simp [initialState] at ho)

/-- Claim C5.  A payload violating a value rule (empty `products` or
`quantity` below 1) yields a non-empty ViolationList whose entries are
all tagged INVALID_VALUE, with an entry for a field exactly when that
field's rule is violated; the create boundary then surfaces the list
verbatim, performs no insert, and leaves the store unchanged. -/
theorem validation_rejects_invalid_payload (st : OrdersState)
    (dto : CreateOrderDTO) (now : Nat)
    (hbad : dto.products.length < 1 ∨ dto.quantity < 1) :
    validateCreateOrder dto ≠ [] ∧
      (∀ viol ∈ validateCreateOrder dto, viol.tag = .INVALID_VALUE) ∧
      (dto.products.length < 1 ↔
        ∃ viol ∈ validateCreateOrder dto, viol.field = "products") ∧
      (dto.quantity < 1 ↔
        ∃ viol ∈ validateCreateOrder dto, viol.field = "quantity") ∧
      (handleCreate st dto now).1 = .error (validateCreateOrder dto) ∧
      (handleCreate st dto now).2 = st := by
  have h1 : validateCreateOrder dto ≠ [] := by
    rcases hbad with hb | hb <;> simp [validateCreateOrder, hb]
  have h2 : ∀ viol ∈ validateCreateOrder dto,
      viol.tag = .INVALID_VALUE := by
    by_cases hp : dto.products.length < 1 <;>
      by_cases hq : dto.quantity < 1 <;>
      simp [validateCreateOrder, hp, hq]
  have h3 : dto.products.length < 1 ↔
      ∃ viol ∈ validateCreateOrder dto, viol.field = "products" := by
    by_cases hp : dto.products.length < 1 <;>
      by_cases hq : dto.quantity < 1 <;>
      simp [validateCreateOrder, hp, hq]
  have h4 : dto.quantity < 1 ↔
      ∃ viol ∈ validateCreateOrder dto, viol.field = "quantity" := by
    by_cases hp : dto.products.length < 1 <;>
      by_cases hq : dto.quantity < 1 <;>
      simp [validateCreateOrder, hp, hq]
  have h5 : handleCreate st dto now =
      (.error (validateCreateOrder dto), st) := by
    rw [handleCreate, if_neg h1]
  exact ⟨h1, h2, h3, h4, by rw [h5], by rw [h5]⟩

/-- Concrete instance of the C5 theorem: the empty-products payload. -/
theorem validation_rejects_invalid_payload_witness :
    validateCreateOrder
        { products := [], quantity := 2, shipping_address := "X" } ≠ [] ∧
      (∀ viol ∈ validateCreateOrder
          { products := [], quantity := 2, shipping_address := "X" },
        viol.tag = .INVALID_VALUE) ∧
      (([] : List Int).length < 1 ↔
        ∃ viol ∈ validateCreateOrder
            { products := [], quantity := 2, shipping_address := "X" },
          viol.field = "products") ∧
      ((2 : Int) < 1 ↔
        ∃ viol ∈ validateCreateOrder
            { products := [], quantity := 2, shipping_address := "X" },
          viol.field = "quantity") ∧
      (handleCreate initialState
          { products := [], quantity := 2, shipping_address := "X" } 0).1 =
        .error (validateCreateOrder
          { products := [], quantity := 2, shipping_address := "X" }) ∧
      (handleCreate initialState
          { products := [], quantity := 2, shipping_address := "X" } 0).2 =
        initialState :=
  validation_rejects_invalid_payload initialState
    { products := [], quantity := 2, shipping_address := "X" } 0
    (Or.inl (by decide))

/-- Claim C6, counterexample.  The claim says a failed lookup delivers
RECORD_NOT_FOUND as a value/error result rather than by raising.  In
the code, `findOne` signals absence by throwing a `NotFoundException`
(`FindOneResult.thrown`, the raising channel of the embedding, as
opposed to `FindOneResult.returned`, the normal-return channel):
looking up id 999 on the store holding only id 1 throws, and the
thrown message carries 999. -/
theorem findOne_not_found_raises_counterexample :
    findOne demoUsers 999 [] = .thrown (notFoundMessage 999) ∧
      notFoundMessage 999 = "ID: 999のユーザーが見つかりません" :=
  ⟨rfl, rfl⟩

/-- Claim C6, amended.  For every store and every id matching no stored
record, `findOne` signals the absence by throwing a NotFoundException
whose message carries exactly the requested id; the lookup itself is a
pure read and leaves the store unchanged. -/
theorem findOne_not_found_raises (users : List UserProfileDto) (id : Int)
    (fields : List String) (h : ∀ u ∈ users, u.id ≠ id) :
    findOne users id fields = .thrown (notFoundMessage id) := by
  have hn : users.find? (fun u => u.id == id) = none := by
    rw [List.find?_eq_none]
    intro u hu
    simp [h u hu]
  simp only [findOne, hn]

/-- Concrete instance of the amended C6 theorem: id 999 on the store
holding only id 1. -/
theorem findOne_not_found_raises_witness :
    findOne demoUsers 999 [] = .thrown (notFoundMessage 999) :=
  findOne_not_found_raises demoUsers 999 [] (by decide)

/-- Claim C7.  For every store and a user found by id, `findOne` with
an empty requested field list returns the full record, all of its
fields in declaration order. -/
theorem findOne_empty_fields_full_record (users : List UserProfileDto)
    (id : Int) (u : UserProfileDto)
    (hfind : users.find? (fun x => x.id == id) = some u) :
    findOne users id [] = .returned (userEntries u) := by
  simp only [findOne, hfind]
  rfl

/-- Concrete instance of the C7 theorem. -/
theorem findOne_empty_fields_full_record_witness :
    findOne demoUsers 1 [] = .returned (userEntries demoUser) :=
  findOne_empty_fields_full_record demoUsers 1 demoUser rfl

/-- Claim C8.  A non-empty requested field list all of whose names do
not exist on the record yields the empty projection, returned normally
(never an error); and in any projection the unknown names are silently
dropped: projecting a list and projecting its known-name sublist give
the same result. -/
theorem findOne_unknown_fields_empty_projection
    (users : List UserProfileDto) (id : Int) (u : UserProfileDto)
    (fields : List String)
    (hfind : users.find? (fun x => x.id == id) = some u)
    (hne : fields ≠ [])
    (hunk : ∀ f ∈ fields, getField u f = none) :
    findOne users id fields = .returned [] ∧
      ∀ fs : List String,
        findOneProjection u fs =
          findOneProjection u
            (fs.filter (fun f => (getField u f).isSome)) := by
  constructor
  · have hlen : fields.length > 0 := List.length_pos.mpr hne
    have hfilter : fields.filter (fun f => (getField u f).isSome) = [] := by
      rw [List.filter_eq_nil_iff]
      intro f hf
      simp [hunk f hf]
    simp only [findOne, hfind, if_pos hlen, findOneProjection, hfilter]
    rfl
  · intro fs
    rw [findOneProjection, findOneProjection, List.filter_filter]
    simp

/-- Concrete instance of the C8 theorem: one unknown requested name. -/
theorem findOne_unknown_fields_empty_projection_witness :
    findOne demoUsers 1 ["unknown_field"] = .returned [] ∧
      ∀ fs : List String,
        findOneProjection demoUser fs =
          findOneProjection demoUser
            (fs.filter (fun f => (getField demoUser f).isSome)) :=
  findOne_unknown_fields_empty_projection demoUsers 1 demoUser
    ["unknown_field"] rfl (by decide) (by decide)

/-- Claim C9.  At the controller boundary, a non-empty selector string
all of whose comma-separated names fail the whitelist reduces to an
empty field list, so `getProfile` returns the full record with all of
its fields, not an empty projection. -/
theorem getProfile_all_invalid_selector_full_record
    (users : List UserProfileDto) (id : Int) (u : UserProfileDto)
    (s : String)
    (hfind : users.find? (fun x => x.id == id) = some u)
    (hne : s ≠ "")
    (hall : ∀ f ∈ splitComma s, validFields.contains f = false) :
    getProfile users id (some s) = .returned (userEntries u) := by
  have hparse : parseFieldsQuery (some s) = [] := by
    simp only [parseFieldsQuery, if_neg hne]
    rw [List.filter_eq_nil_iff]
    intro f hf
    simpa using hall f hf
  rw [getProfile, hparse]
  simp only [findOne, hfind]
  rfl

/-- Concrete instance of the C9 theorem: selector "foo,bar". -/
theorem getProfile_all_invalid_selector_full_record_witness :
    getProfile demoUsers 1 (some "foo,bar") =
      .returned (userEntries demoUser) :=
  getProfile_all_invalid_selector_full_record demoUsers 1 demoUser
    "foo,bar" rfl (by decide) (by decide)

/-- Claim C10.  After any sequence of n creations on the fresh store,
the store holds exactly the n returned records in insertion order, the
assigned ids are consecutive 1..n, and `currentId` equals n. -/
theorem runCreates_fresh_store_state (reqs : List (CreateOrderDTO × Nat)) :
    (runCreates initialState reqs).2.orders =
        (runCreates initialState reqs).1 ∧
      (runCreates initialState reqs).2.orders.length = reqs.length ∧
      (runCreates initialState reqs).2.orders.map Order.id =
        List.range' 1 reqs.length ∧
      (runCreates initialState reqs).2.currentId = reqs.length := by
  obtain ⟨h1, h2, h3⟩ := runCreates_spec initialState reqs
  have horders : (runCreates initialState reqs).2.orders =
      (runCreates initialState reqs).1 := by
    rw [h3]
    rfl
  refine ⟨horders, ?_, ?_, ?_⟩
  · rw [horders]
    have := congrArg List.length h1
    simpa using this
  · rw [horders, h1]
    rfl
  · simpa [initialState] using h2

end NestHttp
